import Mathlib

/-!
Shallow embedding of the invoice-extraction pipeline in `src/app.py`:
field normalization, the embedded-JSON response parser, the per-document
retry loop of `process_pdf`, temporary-image file handling, the batch
aggregation loop, and the session-state result cache.  Text is modeled as
lists of Unicode code points (`List Nat`).
-/

namespace SPR

/-- Code points of a string literal. -/
def lc (s : String) : List Nat := s.data.map Char.toNat

/-! ### Python `str.strip` / `str.upper` (ASCII fragment) -/

/-- Whitespace recognized by `str.strip` (ASCII part). -/
def isPySpace (n : Nat) : Bool :=
  n = 32 || n = 9 || n = 10 || n = 13 || n = 11 || n = 12

/-- Python `str.strip()`: remove leading and trailing whitespace. -/
def pyStrip (s : List Nat) : List Nat :=
  ((s.dropWhile isPySpace).reverse.dropWhile isPySpace).reverse

/-- ASCII uppercasing of one code point, as `str.upper` acts on ASCII. -/
def upperChar (n : Nat) : Nat :=
  if 97 ≤ n && n ≤ 122 then n - 32 else n

/-- Python `str.upper()` on the ASCII fragment. -/
def pyUpper (s : List Nat) : List Nat := s.map upperChar

/-! ### JSON values and `json.loads` -/

/-- Decoded JSON values.  Objects are Python dicts: ordered key/value lists
with distinct keys (duplicate keys in the source text keep the last value,
as `json.loads` does). -/
inductive Json where
  | null
  | bool (b : Bool)
  | num (raw : List Nat)
  | str (s : List Nat)
  | arr (xs : List Json)
  | obj (kvs : List (List Nat × Json))

/-- Does the ordered dict `d` contain key `k`? -/
def hasKey (d : List (List Nat × α)) (k : List Nat) : Bool :=
  d.any (fun p => p.1 == k)

/-- Python dict assignment `d[k] = v`: overwrite in place if the key exists,
otherwise append at the end. -/
def dictInsert (d : List (List Nat × α)) (k : List Nat) (v : α) : List (List Nat × α) :=
  if hasKey d k then d.map (fun p => if p.1 == k then (p.1, v) else p)
  else d ++ [(k, v)]

/-- Python dict lookup returning `none` when the key is absent. -/
def dictGet (d : List (List Nat × α)) (k : List Nat) : Option α :=
  (d.find? (fun p => p.1 == k)).map Prod.snd

/-- JSON insignificant whitespace. -/
def isJsonWs (n : Nat) : Bool := n = 32 || n = 9 || n = 10 || n = 13

/-- Skip insignificant whitespace. -/
def skipWs (s : List Nat) : List Nat := s.dropWhile isJsonWs

/-- Value of a hexadecimal digit. -/
def hexVal (n : Nat) : Option Nat :=
  if 48 ≤ n && n ≤ 57 then some (n - 48)
  else if 97 ≤ n && n ≤ 102 then some (n - 87)
  else if 65 ≤ n && n ≤ 70 then some (n - 55)
  else none

/-- Decimal digit? -/
def isDigit (n : Nat) : Bool := 48 ≤ n && n ≤ 57

/-- Parse the body of a JSON string after the opening quote; returns the
decoded content and the rest after the closing quote.  Escapes follow the
JSON grammar; raw control characters are rejected as `json.loads` does. -/
def parseStringBody : Nat → List Nat → Option (List Nat × List Nat)
  | 0, _ => none
  | f+1, s =>
    match s with
    | [] => none
    | 34 :: r => some ([], r)
    | 92 :: e :: r =>
      if e = 34 || e = 92 || e = 47 then
        (parseStringBody f r).map (fun p => (e :: p.1, p.2))
      else if e = 98 then (parseStringBody f r).map (fun p => (8 :: p.1, p.2))
      else if e = 102 then (parseStringBody f r).map (fun p => (12 :: p.1, p.2))
      else if e = 110 then (parseStringBody f r).map (fun p => (10 :: p.1, p.2))
      else if e = 114 then (parseStringBody f r).map (fun p => (13 :: p.1, p.2))
      else if e = 116 then (parseStringBody f r).map (fun p => (9 :: p.1, p.2))
      else if e = 117 then
        match r with
        | h1 :: h2 :: h3 :: h4 :: r2 =>
          match hexVal h1, hexVal h2, hexVal h3, hexVal h4 with
          | some a, some b, some c, some d =>
            (parseStringBody f r2).map
              (fun p => ((a * 4096 + b * 256 + c * 16 + d) :: p.1, p.2))
          | _, _, _, _ => none
        | _ => none
      else none
    | c :: r =>
      if c < 32 then none
      else (parseStringBody f r).map (fun p => (c :: p.1, p.2))

/-- Optional fraction part of a JSON number. -/
def parseFrac (s : List Nat) : Option (List Nat × List Nat) :=
  match s with
  | 46 :: r =>
    match r.takeWhile isDigit with
    | [] => none
    | ds => some (46 :: ds, r.dropWhile isDigit)
  | _ => some ([], s)

/-- Optional exponent part of a JSON number. -/
def parseExp (s : List Nat) : Option (List Nat × List Nat) :=
  match s with
  | c :: r =>
    if c = 101 || c = 69 then
      let sg : List Nat × List Nat :=
        match r with
        | 43 :: r2 => ([43], r2)
        | 45 :: r2 => ([45], r2)
        | _ => ([], r)
      match sg.2.takeWhile isDigit with
      | [] => none
      | ds => some (c :: (sg.1 ++ ds), sg.2.dropWhile isDigit)
    else some ([], s)
  | [] => some ([], [])

/-- Parse a JSON number token (raw text kept); the integer part rejects
leading zeros per the JSON grammar. -/
def parseNumber (s : List Nat) : Option (List Nat × List Nat) :=
  let sg : List Nat × List Nat :=
    match s with
    | 45 :: r => ([45], r)
    | _ => ([], s)
  let ip : Option (List Nat × List Nat) :=
    match sg.2 with
    | 48 :: r => some ([48], r)
    | c :: r =>
      if 49 ≤ c && c ≤ 57 then some (c :: r.takeWhile isDigit, r.dropWhile isDigit)
      else none
    | [] => none
  match ip with
  | none => none
  | some (ipart, s2) =>
    match parseFrac s2 with
    | none => none
    | some (fpart, s3) =>
      match parseExp s3 with
      | none => none
      | some (epart, s4) => some (sg.1 ++ ipart ++ fpart ++ epart, s4)

mutual

/-- Parse one JSON value (fuel-indexed recursive descent, the grammar of
`json.loads`); returns the value and the unconsumed rest. -/
def parseVal : Nat → List Nat → Option (Json × List Nat)
  | 0, _ => none
  | f+1, s =>
    match skipWs s with
    | [] => none
    | 34 :: r => (parseStringBody (r.length + 1) r).map (fun p => (Json.str p.1, p.2))
    | 123 :: r => parseObjRest f r true []
    | 91 :: r => parseArrRest f r true []
    | 116 :: 114 :: 117 :: 101 :: r => some (Json.bool true, r)
    | 102 :: 97 :: 108 :: 115 :: 101 :: r => some (Json.bool false, r)
    | 110 :: 117 :: 108 :: 108 :: r => some (Json.null, r)
    | s1 => (parseNumber s1).map (fun p => (Json.num p.1, p.2))

/-- Parse the remainder of an object body (input starts after `{` or after a
comma); `first` is true when no member has been parsed yet, so `}` may close
the object immediately.  Members accumulate by Python dict assignment. -/
def parseObjRest : Nat → List Nat → Bool → List (List Nat × Json) →
    Option (Json × List Nat)
  | 0, _, _, _ => none
  | f+1, s, first, acc =>
    match skipWs s with
    | 125 :: r => if first then some (Json.obj acc, r) else none
    | 34 :: r =>
      match parseStringBody (r.length + 1) r with
      | none => none
      | some (key, r1) =>
        match skipWs r1 with
        | 58 :: r2 =>
          match parseVal f r2 with
          | none => none
          | some (v, r3) =>
            match skipWs r3 with
            | 44 :: r4 => parseObjRest f r4 false (dictInsert acc key v)
            | 125 :: r4 => some (Json.obj (dictInsert acc key v), r4)
            | _ => none
        | _ => none
    | _ => none

/-- Parse the remainder of an array body (input starts after `[` or after a
comma). -/
def parseArrRest : Nat → List Nat → Bool → List Json → Option (Json × List Nat)
  | 0, _, _, _ => none
  | f+1, s, first, acc =>
    match skipWs s with
    | 93 :: r => if first then some (Json.arr acc, r) else none
    | s1 =>
      match parseVal f s1 with
      | none => none
      | some (v, r1) =>
        match skipWs r1 with
        | 44 :: r2 => parseArrRest f r2 false (acc ++ [v])
        | 93 :: r2 => some (Json.arr (acc ++ [v]), r2)
        | _ => none

end

/-- `json.loads`: parse a complete JSON document, allowing surrounding
whitespace only. -/
def json_loads (s : List Nat) : Option Json :=
  match parseVal (s.length + 1) s with
  | some (v, r) => if skipWs r = [] then some v else none
  | none => none

/-! ### The response parser of `process_pdf` (lines 131-137 of app.py) -/

/-- Failure modes of response parsing: the regex found no candidate, or
`json.loads` rejected the matched text. -/
inductive ParseFailure where
  | noJson
  | decodeError
  deriving DecidableEq

/-- The match of `re.search(r'\x7b.*\x7d', text, re.DOTALL)`: greedy and
leftmost, so it spans from the first `{` of the text to the last `}`,
provided that `}` occurs after that `{`; embedded newlines are allowed
because of DOTALL. -/
def findEmbeddedJson (s : List Nat) : Option (List Nat) :=
  match s.dropWhile (fun c => c != 123) with
  | [] => none
  | c :: rest =>
    let body := (rest.reverse.dropWhile (fun c => c != 125)).reverse
    if body.isEmpty then none else some (c :: body)

/-- Lines 131-137 of `process_pdf`: regex-extract the JSON candidate and
decode it; `ValueError`/`JSONDecodeError` become `ParseFailure`. -/
def parse_response (s : List Nat) : Except ParseFailure Json :=
  match findEmbeddedJson s with
  | none => Except.error ParseFailure.noJson
  | some js =>
    match json_loads js with
    | some v => Except.ok v
    | none => Except.error ParseFailure.decodeError

/-! ### Field Normalizer (lines 61-76 of app.py) -/

/-- The fixed lookup table `field_name_mapping`. -/
def field_name_mapping : List (List Nat × List Nat) :=
  [(lc "INVOICE NO.", lc "INVOICE_NO"),
   (lc "DATE", lc "INVOICE_DATE"),
   (lc "PO#", lc "PO_NUMBER"),
   (lc "MERCHANDISE NET", lc "MERCHANDISE_NET"),
   (lc "FREIGHT CHARGE", lc "FREIGHT_CHARGE"),
   (lc "SMALL ORDER FEE", lc "SMALL_ORDER_FEE"),
   (lc "INVOICE TOTAL", lc "INVOICE_TOTAL")]

/-- `field_name_mapping.get(key.strip().upper(), key.strip().upper())`. -/
def normKey (k : List Nat) : List Nat :=
  let u := pyUpper (pyStrip k)
  (dictGet field_name_mapping u).getD u

/-- `normalize_field_names`: rebuild the dict, assigning each value under
its normalized key (so two raw keys with the same normalized form collapse
into one entry, the later value winning). -/
def normalize_field_names (d : List (List Nat × Json)) : List (List Nat × Json) :=
  d.foldl (fun acc p => dictInsert acc (normKey p.1) p.2) []

/-! ### The per-document retry loop `process_pdf` (lines 78-161) -/

/-- Environment of one document's processing: per attempt index, whether
rasterization (`convert_from_path` + first page + save + encode) succeeds,
and what the model call yields (`none` models a raised transport error). -/
structure ModelEnv where
  raster : Nat → Bool
  model : Nat → Option (List Nat)

/-- Key under which the document identifier is stored in a record. -/
def pdfFileKey : List Nat := lc "pdf_file"

/-- One attempt of the `process_pdf` loop body: rasterize, call the model,
parse the response, normalize the field names and tag the record with the
file name.  `none` is any of the caught exceptions (rasterization failure,
transport error, or unparseable response). -/
def attempt_record (env : ModelEnv) (pdf_file : List Nat) (i : Nat) :
    Option (List (List Nat × Json)) :=
  if env.raster i then
    match env.model i with
    | none => none
    | some txt =>
      match parse_response txt with
      | Except.ok (Json.obj kvs) =>
        some (dictInsert (normalize_field_names kvs) pdfFileKey (Json.str pdf_file))
      | _ => none
  else none

/-- Observable outcome of `process_pdf`: the returned record (or `None`)
together with how many model calls and rasterization calls were made. -/
structure RunStats where
  result : Option (List (List Nat × Json))
  modelCalls : Nat
  rasterCalls : Nat

/-- The retry loop from attempt index `i`, with `n` attempts remaining: on
an exception the loop sleeps and retries unless this was the last attempt,
in which case it returns `None`. -/
def processGo (env : ModelEnv) (pdf_file : List Nat) : Nat → Nat → RunStats
  | _, 0 => ⟨none, 0, 0⟩
  | i, n+1 =>
    let mc := if env.raster i then 1 else 0
    match attempt_record env pdf_file i, n with
    | some r, _ => ⟨some r, mc, 1⟩
    | none, 0 => ⟨none, mc, 1⟩
    | none, m+1 =>
      let rest := processGo env pdf_file (i+1) (m+1)
      ⟨rest.result, mc + rest.modelCalls, 1 + rest.rasterCalls⟩

/-- `process_pdf(pdf_file, max_retries=3, retry_delay=5)`. -/
def process_pdf (env : ModelEnv) (pdf_file : List Nat) (max_retries : Nat := 3) :
    RunStats :=
  processGo env pdf_file 0 max_retries

/-- The retry loop with the on-disk scratch file made explicit: the third
argument records whether `temp_<pdf_file>.png` currently exists; the result
pairs the returned record with that flag at return time.  `image.save`
creates the file on every attempt that rasterizes; `os.remove` runs only on
the success path (line 145). -/
def processFS (env : ModelEnv) (pdf_file : List Nat) :
    Nat → Nat → Bool → Option (List (List Nat × Json)) × Bool
  | _, 0, fs => (none, fs)
  | i, n+1, fs =>
    if env.raster i then
      match attempt_record env pdf_file i, n with
      | some r, _ => (some r, false)
      | none, 0 => (none, true)
      | none, m+1 => processFS env pdf_file (i+1) (m+1) true
    else
      match n with
      | 0 => (none, fs)
      | m+1 => processFS env pdf_file (i+1) (m+1) fs

/-! ### Batch aggregation (lines 166-177) -/

/-- The orchestrator loop over the remaining files, carrying the `data`
accumulator: append the record if `process_pdf` returned one, else record a
failure status and move on. -/
def run_batch_loop (outcome : List Nat → Option (List (List Nat × Json))) :
    List (List Nat) → List (List (List Nat × Json)) → List (List (List Nat × Json))
  | [], data => data
  | f :: rest, data =>
    match outcome f with
    | some r => run_batch_loop outcome rest (data ++ [r])
    | none => run_batch_loop outcome rest data

/-- Lines 166-177: `data = []`, then the per-file loop. -/
def run_batch (files : List (List Nat))
    (outcome : List Nat → Option (List (List Nat × Json))) :
    List (List (List Nat × Json)) :=
  run_batch_loop outcome files []

/-! ### Tabular projection (lines 183-184 and 196-198) -/

/-- `columns_order` of the `df.reindex` calls. -/
def columns_order : List (List Nat) :=
  [lc "INVOICE_NO", lc "INVOICE_DATE", lc "PO_NUMBER", lc "MERCHANDISE_NET",
   lc "FREIGHT_CHARGE", lc "SMALL_ORDER_FEE", lc "INVOICE_TOTAL", lc "pdf_file"]

/-- One row of `df.reindex(columns=columns_order)`: the record's value at
each fixed column, `none` rendering as an empty cell. -/
def toRow (record : List (List Nat × Json)) : List (Option Json) :=
  columns_order.map (fun c => dictGet record c)

/-! ### Session-state cache (lines 13-17, 39-45, 186, 190-191) -/

/-- The Streamlit session state used by the app. -/
structure SessionState where
  data : Option (List (List (List Nat × Json)))
  uploaded_file_names : List (List Nat)

/-- Lexicographic comparison on code-point lists, the order `sorted` uses
on Python strings. -/
def lexLe : List Nat → List Nat → Bool
  | [], _ => true
  | _ :: _, [] => false
  | a :: as, b :: bs => if a < b then true else if b < a then false else lexLe as bs

/-- Insert into an already sorted list of names. -/
def insertSorted (x : List Nat) : List (List Nat) → List (List Nat)
  | [] => [x]
  | y :: ys => if lexLe x y then x :: y :: ys else y :: insertSorted x ys

/-- `sorted([file.name for file in uploaded_files])` (insertion sort; equal
names are identical lists, so any sorting algorithm agrees). -/
def sortNames (l : List (List Nat)) : List (List Nat) := l.foldr insertSorted []

/-- Result of one upload invocation: the new session state, the data the
table/CSV is built from, and how many documents were run through the
pipeline (0 on a cache hit). -/
structure UploadRun where
  state : SessionState
  shown : Option (List (List (List Nat × Json)))
  processedDocs : Nat

/-- Lines 39-45 and 166-191: compare the sorted upload names with the
stored ones, invalidating the cache on any difference (or when no data is
stored); then either reuse the cached data or run the batch, storing the
result only when at least one record was produced. -/
def run_upload (st : SessionState) (files : List (List Nat))
    (pipeline : List Nat → Option (List (List Nat × Json))) : UploadRun :=
  let current := sortNames files
  let st1 : SessionState :=
    match st.data with
    | none => { data := none, uploaded_file_names := current }
    | some d =>
      if st.uploaded_file_names = current then { data := some d, uploaded_file_names := st.uploaded_file_names }
      else { data := none, uploaded_file_names := current }
  match st1.data with
  | some d => { state := st1, shown := some d, processedDocs := 0 }
  | none =>
    let data := run_batch files pipeline
    let st2 : SessionState :=
      { st1 with data := if data.isEmpty then none else some data }
    { state := st2, shown := st2.data, processedDocs := files.length }

/-! ### Substring census for the response-parser claims -/

/-- All nonempty contiguous substrings. -/
def substrings (s : List Nat) : List (List Nat) :=
  (List.range s.length).flatMap
    (fun i => (List.range (s.length - i)).map (fun l => (s.drop i).take (l + 1)))

/-- Is `t` the text of one well-formed JSON object: starts with `{`, ends
with `}`, and `json.loads` accepts it as an object? -/
def isJsonObjText (t : List Nat) : Bool :=
  (t.head? == some 123) && (t.getLast? == some 125) &&
    (match json_loads t with
     | some (Json.obj _) => true
     | _ => false)

/-- How many substrings of `s` are well-formed JSON object texts. -/
def countObjSubstrings (s : List Nat) : Nat :=
  (substrings s).countP isJsonObjText

/-- Does `s` contain a `\x7b`…`\x7d` pair (a `{` with a `}` somewhere after
it), i.e. can the regex `\x7b.*\x7d` match at all? -/
def hasBracePair (s : List Nat) : Bool :=
  match s.dropWhile (fun c => c != 123) with
  | [] => false
  | _ :: rest => decide (125 ∈ rest)

/-! ### Generic helper lemmas -/

theorem run_batch_loop_eq (outcome : List Nat → Option (List (List Nat × Json))) :
    ∀ (files : List (List Nat)) (data : List (List (List Nat × Json))),
      run_batch_loop outcome files data = data ++ files.filterMap outcome := by
  intro files
  induction files with
  | nil => intro data; simp [run_batch_loop]
  | cons f rest ih =>
    intro data
    cases h : outcome f <;> simp [run_batch_loop, h, ih]

theorem filterMap_length_add (o : α → Option β) :
    ∀ files : List α,
      (files.filterMap o).length + (files.filter (fun f => (o f).isNone)).length
        = files.length := by
  intro files
  induction files with
  | nil => rfl
  | cons f rest ih =>
    cases h : o f <;> simp [List.filterMap_cons, List.filter_cons, h] <;> omega

theorem find?_append_none (q : α → Bool) {l : List α} (h : l.find? q = none)
    (m : List α) : (l ++ m).find? q = m.find? q := by
  induction l with
  | nil => simp
  | cons a t ih =>
    rw [List.find?_cons] at h
    cases hq : q a
    · rw [List.cons_append, List.find?_cons, hq]
      exact ih (by rwa [hq] at h)
    · rw [hq] at h; exact absurd h (by simp)

theorem hasKey_false_find? {d : List (List Nat × α)} {k : List Nat}
    (h : hasKey d k = false) : d.find? (fun p => p.1 == k) = none := by
  induction d with
  | nil => rfl
  | cons a t ih =>
    simp only [hasKey, List.any_cons, Bool.or_eq_false_iff] at h
    rw [List.find?_cons, h.1]
    exact ih (by simp [hasKey, h.2])

theorem dictGet_append_fresh {d : List (List Nat × α)} {k c : List Nat} {v : α}
    (hck : c ≠ k) : dictGet (d ++ [(k, v)]) c = dictGet d c := by
  unfold dictGet
  induction d with
  | nil =>
    simp only [List.nil_append, List.find?]
    have : ((k, v).1 == c) = false := by
      simp only [Prod.fst]
      exact beq_false_of_ne (fun h => hck h.symm)
    simp [List.find?, this]
  | cons a t ih =>
    rw [List.cons_append, List.find?_cons, List.find?_cons]
    cases hq : (a.1 == c)
    · exact ih
    · rfl

theorem dictGet_append_self {d : List (List Nat × α)} {k : List Nat} {v : α}
    (h : hasKey d k = false) : dictGet (d ++ [(k, v)]) k = some v := by
  unfold dictGet
  rw [find?_append_none _ (hasKey_false_find? h)]
  simp [List.find?]

theorem dictInsert_fresh {d : List (List Nat × α)} {k : List Nat} {v : α}
    (h : hasKey d k = false) : dictInsert d k v = d ++ [(k, v)] := by
  simp [dictInsert, h]

theorem map_congr_mem {l : List α} {f g : α → β}
    (h : ∀ a ∈ l, f a = g a) : l.map f = l.map g := by
  induction l with
  | nil => rfl
  | cons a t ih =>
    simp only [List.map_cons]
    rw [h a (by simp), ih (fun a ha => h a (by simp [ha]))]

/-! ### C4: batch aggregation -/

/-- C4.  Batch aggregation: the orchestrator loop produces exactly the
records of the succeeding documents, in their original relative order
(`filterMap`), hence N − M records when M of the N documents fail; failed
documents contribute nothing (no placeholder) and never abort the loop. -/
theorem batch_aggregation (files : List (List Nat))
    (outcome : List Nat → Option (List (List Nat × Json))) :
    run_batch files outcome = files.filterMap outcome ∧
    (run_batch files outcome).length
      = files.length - (files.filter (fun f => (outcome f).isNone)).length := by
  have he : run_batch files outcome = files.filterMap outcome := by
    unfold run_batch
    simpa using run_batch_loop_eq outcome files []
  refine ⟨he, ?_⟩
  rw [he]
  have := filterMap_length_add outcome files
  omega

/-! ### C10: fixed-column projection -/

/-- C10.  The tabular artifact has exactly the eight fixed columns; adding
to a record an entry whose key is not one of them leaves the projected row
unchanged (the entry is silently dropped from the table), although it is
still present in the record itself. -/
theorem column_projection (record : List (List Nat × Json)) (k : List Nat)
    (v : Json) (hk : k ∉ columns_order) (hfresh : hasKey record k = false) :
    (toRow record).length = 8 ∧
    toRow (dictInsert record k v) = toRow record ∧
    dictGet (dictInsert record k v) k = some v := by
  refine ⟨by simp [toRow, columns_order], ?_, ?_⟩
  · rw [dictInsert_fresh hfresh]
    unfold toRow
    exact map_congr_mem (fun c hc =>
      dictGet_append_fresh (fun hck => hk (hck ▸ hc)))
  · rw [dictInsert_fresh hfresh]
    exact dictGet_append_self hfresh

/-- Concrete instantiation of `column_projection`. -/
theorem column_projection_witness :
    (lc "EXTRA" ∉ columns_order) ∧
    hasKey [(lc "INVOICE_NO", Json.str (lc "A"))] (lc "EXTRA") = false ∧
    ((toRow [(lc "INVOICE_NO", Json.str (lc "A"))]).length = 8 ∧
     toRow (dictInsert [(lc "INVOICE_NO", Json.str (lc "A"))] (lc "EXTRA") Json.null)
        = toRow [(lc "INVOICE_NO", Json.str (lc "A"))] ∧
     dictGet (dictInsert [(lc "INVOICE_NO", Json.str (lc "A"))] (lc "EXTRA") Json.null)
        (lc "EXTRA") = some Json.null) :=
  ⟨by decide, by decide,
   column_projection [(lc "INVOICE_NO", Json.str (lc "A"))] (lc "EXTRA") Json.null
     (by decide) (by decide)⟩

/-! ### Retry-loop lemmas -/

theorem attempt_record_raster {env : ModelEnv} {pdf : List Nat} {i : Nat}
    {r : List (List Nat × Json)} (h : attempt_record env pdf i = some r) :
    env.raster i = true := by
  by_cases hr : env.raster i = true
  · exact hr
  · rw [attempt_record, if_neg hr] at h; exact absurd h (by simp)

theorem processGo_all_fail (env : ModelEnv) (pdf : List Nat) :
    ∀ (n i : Nat),
      (∀ j, j < n → env.raster (i + j) = true ∧ attempt_record env pdf (i + j) = none) →
      processGo env pdf i n = ⟨none, n, n⟩ := by
  intro n
  induction n with
  | zero => intro i _; rfl
  | succ m ih =>
    intro i h
    have h0 := h 0 (by omega)
    rw [Nat.add_zero] at h0
    cases m with
    | zero =>
      simp [processGo, h0.1, h0.2]
    | succ m' =>
      have hrest : processGo env pdf (i + 1) (m' + 1) = ⟨none, m' + 1, m' + 1⟩ := by
        apply ih
        intro j hj
        have := h (j + 1) (by omega)
        rwa [show i + (j + 1) = i + 1 + j by omega] at this
      simp [processGo, h0.1, h0.2, hrest] <;> omega

theorem processGo_all_raster_fail (env : ModelEnv) (pdf : List Nat) :
    ∀ (n i : Nat),
      (∀ j, j < n → env.raster (i + j) = false) →
      processGo env pdf i n = ⟨none, 0, n⟩ := by
  intro n
  induction n with
  | zero => intro i _; rfl
  | succ m ih =>
    intro i h
    have h0 := h 0 (by omega)
    rw [Nat.add_zero] at h0
    have ha : attempt_record env pdf i = none := by
      rw [attempt_record, if_neg (by simp [h0])]
    cases m with
    | zero =>
      simp [processGo, h0, ha]
    | succ m' =>
      have hrest : processGo env pdf (i + 1) (m' + 1) = ⟨none, 0, m' + 1⟩ := by
        apply ih
        intro j hj
        have := h (j + 1) (by omega)
        rwa [show i + (j + 1) = i + 1 + j by omega] at this
      simp [processGo, h0, ha, hrest] <;> omega

theorem processGo_succeeds (env : ModelEnv) (pdf : List Nat)
    (r : List (List Nat × Json)) :
    ∀ (k i n : Nat), k < n →
      (∀ j, j < k → attempt_record env pdf (i + j) = none) →
      attempt_record env pdf (i + k) = some r →
      processGo env pdf i n =
        ⟨some r, ((List.range (k + 1)).filter (fun j => env.raster (i + j))).length,
         k + 1⟩ := by
  intro k
  induction k with
  | zero =>
    intro i n hn _ hk
    rw [Nat.add_zero] at hk
    obtain ⟨m, rfl⟩ : ∃ m, n = m + 1 := ⟨n - 1, by omega⟩
    have hr := attempt_record_raster hk
    cases m <;> simp [processGo, hk, hr, List.range_succ, List.filter]
  | succ k' ih =>
    intro i n hn hfail hk
    obtain ⟨m, rfl⟩ : ∃ m, n = m + 1 := ⟨n - 1, by omega⟩
    have h0 : attempt_record env pdf i = none := by
      have := hfail 0 (by omega); rwa [Nat.add_zero] at this
    obtain ⟨m', rfl⟩ : ∃ m', m = m' + 1 := ⟨m - 1, by omega⟩
    have hrest := ih (i + 1) (m' + 1) (by omega)
      (fun j hj => by
        have := hfail (j + 1) (by omega)
        rwa [show i + (j + 1) = i + 1 + j by omega] at this)
      (by rwa [show i + 1 + k' = i + (k' + 1) by omega])
    have hshift :
        ((List.range (k' + 1 + 1)).filter (fun j => env.raster (i + j))).length
          = (if env.raster i then 1 else 0)
            + ((List.range (k' + 1)).filter (fun j => env.raster (i + 1 + j))).length := by
      rw [List.range_succ_eq_map]
      simp only [List.filter_cons, List.filter_map, List.length_map]
      have hfun : (fun j => env.raster (i + (j + 1))) = (fun j => env.raster (i + 1 + j)) := by
        funext j; rw [show i + (j + 1) = i + 1 + j by omega]
      cases hr : env.raster i <;>
        simp [hr, Function.comp_def, hfun] <;> omega
    have hgo : processGo env pdf i (m' + 1 + 1) =
        ⟨some r, (if env.raster i then 1 else 0)
          + ((List.range (k' + 1)).filter (fun j => env.raster (i + 1 + j))).length,
         1 + (k' + 1)⟩ := by
      simp [processGo, h0, hrest]
    rw [hgo]
    simp only [RunStats.mk.injEq, true_and]
    exact ⟨hshift.symm, by omega⟩

/-! ### C3: retry call counts -/

/-- C3.  Retry counts: if the model call fails on the first `k` attempts
(`k < max_retries`, rasterization succeeding so the model is really called)
and attempt `k` succeeds, `process_pdf` returns that record after exactly
`k + 1` model calls; if every attempt fails the same way, it makes exactly
`max_retries` model calls (3 by default) and returns no record. -/
theorem retry_call_counts :
    (∀ (env : ModelEnv) (pdf : List Nat) (max_retries k : Nat)
       (r : List (List Nat × Json)), k < max_retries →
       (∀ j, j < k → env.raster j = true ∧ attempt_record env pdf j = none) →
       attempt_record env pdf k = some r →
       process_pdf env pdf max_retries = ⟨some r, k + 1, k + 1⟩) ∧
    (∀ (env : ModelEnv) (pdf : List Nat) (max_retries : Nat),
       (∀ j, j < max_retries → env.raster j = true ∧ attempt_record env pdf j = none) →
       process_pdf env pdf max_retries = ⟨none, max_retries, max_retries⟩) := by
  constructor
  · intro env pdf maxr k r hk hfail hsucc
    unfold process_pdf
    have hgo := processGo_succeeds env pdf r k 0 maxr hk
      (fun j hj => by rw [Nat.zero_add]; exact (hfail j hj).2)
      (by rwa [Nat.zero_add])
    rw [hgo]
    have hall : (List.range (k + 1)).filter (fun j => env.raster (0 + j))
        = List.range (k + 1) := by
      rw [List.filter_eq_self]
      intro j hj
      rw [List.mem_range] at hj
      rw [Nat.zero_add]
      rcases Nat.lt_or_ge j k with h | h
      · exact (hfail j h).1
      · have : j = k := by omega
        subst this
        exact attempt_record_raster hsucc
    rw [hall, List.length_range]
  · intro env pdf maxr hfail
    unfold process_pdf
    exact processGo_all_fail env pdf maxr 0
      (fun j hj => by rw [Nat.zero_add]; exact hfail j hj)

/-- Environment where the model raises on the first attempt and answers on
later ones. -/
def envK1 : ModelEnv :=
  ⟨fun _ => true, fun i => if i = 0 then none else some (lc "\x7b\"DATE\": \"d\"\x7d")⟩

/-- The record extracted from `envK1`'s answer for `a.pdf`. -/
def recK1 : List (List Nat × Json) :=
  [(lc "INVOICE_DATE", Json.str (lc "d")), (lc "pdf_file", Json.str (lc "a.pdf"))]

/-- Environment where the model raises on every attempt. -/
def envK2 : ModelEnv := ⟨fun _ => true, fun _ => none⟩

/-- Concrete instantiation of `retry_call_counts`: one failure then success
gives 2 calls; three failures give 3 calls and no record. -/
theorem retry_call_counts_witness :
    (1 < 3 ∧
     (∀ j, j < 1 → envK1.raster j = true ∧ attempt_record envK1 (lc "a.pdf") j = none) ∧
     attempt_record envK1 (lc "a.pdf") 1 = some recK1 ∧
     process_pdf envK1 (lc "a.pdf") 3 = ⟨some recK1, 2, 2⟩) ∧
    ((∀ j, j < 3 → envK2.raster j = true ∧ attempt_record envK2 (lc "a.pdf") j = none) ∧
     process_pdf envK2 (lc "a.pdf") 3 = ⟨none, 3, 3⟩) := by
  have h1 : ∀ j, j < 1 → envK1.raster j = true ∧ attempt_record envK1 (lc "a.pdf") j = none := by
    intro j hj
    have hj0 : j = 0 := by omega
    subst hj0
    exact ⟨rfl, rfl⟩
  have h2 : ∀ j, j < 3 → envK2.raster j = true ∧ attempt_record envK2 (lc "a.pdf") j = none :=
    fun j _ => ⟨rfl, rfl⟩
  exact ⟨⟨by omega, h1, rfl,
          retry_call_counts.1 envK1 (lc "a.pdf") 3 1 recK1 (by omega) h1 rfl⟩,
         ⟨h2, retry_call_counts.2 envK2 (lc "a.pdf") 3 h2⟩⟩

/-! ### C7: rasterization failures and the outer retry loop -/

/-- C7.  Rasterization failures are not retried inside the rasterization
step (the failing attempt makes no model call at all), but the outer
per-document loop re-runs the whole pipeline: after `k` attempts whose
rasterization failed, attempt `k` (if within `max_retries`) rasterizes
again and can succeed end to end, rasterization having been invoked
`k + 1` times; if rasterization fails on all attempts it is invoked exactly
`max_retries` times with no model call ever made. -/
theorem rasterization_retry :
    (∀ (env : ModelEnv) (pdf : List Nat) (max_retries k : Nat)
       (r : List (List Nat × Json)), k < max_retries →
       (∀ j, j < k → env.raster j = false) →
       attempt_record env pdf k = some r →
       process_pdf env pdf max_retries = ⟨some r, 1, k + 1⟩) ∧
    (∀ (env : ModelEnv) (pdf : List Nat) (max_retries : Nat),
       (∀ j, j < max_retries → env.raster j = false) →
       process_pdf env pdf max_retries = ⟨none, 0, max_retries⟩) := by
  constructor
  · intro env pdf maxr k r hk hfail hsucc
    unfold process_pdf
    have hgo := processGo_succeeds env pdf r k 0 maxr hk
      (fun j hj => by
        rw [Nat.zero_add, attempt_record, if_neg (by simp [hfail j hj])])
      (by rwa [Nat.zero_add])
    rw [hgo]
    have hone : (List.range (k + 1)).filter (fun j => env.raster (0 + j)) = [k] := by
      rw [List.range_succ, List.filter_append]
      have hnil : (List.range k).filter (fun j => env.raster (0 + j)) = [] := by
        rw [List.filter_eq_nil_iff]
        intro j hj
        rw [List.mem_range] at hj
        simp [Nat.zero_add, hfail j hj]
      rw [hnil]
      simp [Nat.zero_add, attempt_record_raster hsucc]
    rw [hone]
    rfl
  · intro env pdf maxr hfail
    unfold process_pdf
    exact processGo_all_raster_fail env pdf maxr 0
      (fun j hj => by rw [Nat.zero_add]; exact hfail j hj)

/-- Environment whose rasterization fails on attempt 0 only. -/
def envR1 : ModelEnv := ⟨fun i => i != 0, fun _ => some (lc "\x7b\"DATE\": \"d\"\x7d")⟩

/-- The record extracted from `envR1`'s answer for `b.pdf`. -/
def recR1 : List (List Nat × Json) :=
  [(lc "INVOICE_DATE", Json.str (lc "d")), (lc "pdf_file", Json.str (lc "b.pdf"))]

/-- Environment whose rasterization always fails. -/
def envR2 : ModelEnv := ⟨fun _ => false, fun _ => none⟩

/-- Concrete instantiation of `rasterization_retry`. -/
theorem rasterization_retry_witness :
    (1 < 3 ∧
     (∀ j, j < 1 → envR1.raster j = false) ∧
     attempt_record envR1 (lc "b.pdf") 1 = some recR1 ∧
     process_pdf envR1 (lc "b.pdf") 3 = ⟨some recR1, 1, 2⟩) ∧
    ((∀ j, j < 3 → envR2.raster j = false) ∧
     process_pdf envR2 (lc "b.pdf") 3 = ⟨none, 0, 3⟩) := by
  have h1 : ∀ j, j < 1 → envR1.raster j = false := by
    intro j hj
    have hj0 : j = 0 := by omega
    subst hj0
    rfl
  have h2 : ∀ j, j < 3 → envR2.raster j = false := fun j _ => rfl
  exact ⟨⟨by omega, h1, rfl,
          rasterization_retry.1 envR1 (lc "b.pdf") 3 1 recR1 (by omega) h1 rfl⟩,
         ⟨h2, rasterization_retry.2 envR2 (lc "b.pdf") 3 h2⟩⟩

/-! ### C6: temporary image file lifetime -/

theorem processFS_true_stays (env : ModelEnv) (pdf : List Nat) :
    ∀ (n i : Nat), (processFS env pdf i n true).1 = none →
      (processFS env pdf i n true).2 = true := by
  intro n
  induction n with
  | zero => intro i _; rfl
  | succ m ih =>
    intro i h1
    cases ha : attempt_record env pdf i with
    | some r =>
      by_cases hr : env.raster i = true
      · cases m with
        | zero => simp [processFS, hr, ha] at h1
        | succ m' => simp [processFS, hr, ha] at h1
      · rw [Bool.not_eq_true] at hr
        cases m with
        | zero => simp [processFS, hr, ha]
        | succ m' =>
          simp [processFS, hr, ha] at h1 ⊢
          exact ih (i + 1) h1
    | none =>
      by_cases hr : env.raster i = true
      · cases m with
        | zero => simp [processFS, hr, ha]
        | succ m' =>
          simp only [processFS, hr, ha, if_true] at h1 ⊢
          exact ih (i + 1) h1
      · rw [Bool.not_eq_true] at hr
        cases m with
        | zero => simp [processFS, hr, ha]
        | succ m' =>
          simp only [processFS, hr, ha, Bool.false_eq_true, if_false] at h1 ⊢
          exact ih (i + 1) h1

theorem processFS_success_clears (env : ModelEnv) (pdf : List Nat) :
    ∀ (n i : Nat) (fs : Bool) (r : List (List Nat × Json)),
      (processFS env pdf i n fs).1 = some r →
      (processFS env pdf i n fs).2 = false := by
  intro n
  induction n with
  | zero => intro i fs r h; simp [processFS] at h
  | succ m ih =>
    intro i fs r h1
    cases ha : attempt_record env pdf i with
    | some q =>
      by_cases hr : env.raster i = true
      · cases m with
        | zero => simp [processFS, hr, ha]
        | succ m' => simp [processFS, hr, ha]
      · rw [Bool.not_eq_true] at hr
        cases m with
        | zero => simp [processFS, hr, ha] at h1
        | succ m' =>
          simp [processFS, hr, ha] at h1 ⊢
          exact ih (i + 1) fs r h1
    | none =>
      by_cases hr : env.raster i = true
      · cases m with
        | zero => simp [processFS, hr, ha] at h1
        | succ m' =>
          simp only [processFS, hr, ha, if_true] at h1 ⊢
          exact ih (i + 1) true r h1
      · rw [Bool.not_eq_true] at hr
        cases m with
        | zero => simp [processFS, hr, ha] at h1
        | succ m' =>
          simp only [processFS, hr, ha, Bool.false_eq_true, if_false] at h1 ⊢
          exact ih (i + 1) fs r h1

theorem processFS_failure_leaves (env : ModelEnv) (pdf : List Nat) :
    ∀ (n i : Nat) (fs : Bool),
      (processFS env pdf i n fs).1 = none →
      (∃ j, j < n ∧ env.raster (i + j) = true) →
      (processFS env pdf i n fs).2 = true := by
  intro n
  induction n with
  | zero =>
    intro i fs _ hex
    obtain ⟨j, hj, _⟩ := hex
    omega
  | succ m ih =>
    intro i fs h1 hex
    cases ha : attempt_record env pdf i with
    | some r =>
      by_cases hr : env.raster i = true
      · cases m with
        | zero => simp [processFS, hr, ha] at h1
        | succ m' => simp [processFS, hr, ha] at h1
      · rw [Bool.not_eq_true] at hr
        have hcontra : env.raster i = true := attempt_record_raster ha
        rw [hcontra] at hr
        exact absurd hr (by simp)
    | none =>
      by_cases hr : env.raster i = true
      · cases m with
        | zero => simp [processFS, hr, ha]
        | succ m' =>
          simp only [processFS, hr, ha, if_true] at h1 ⊢
          exact processFS_true_stays env pdf (m' + 1) (i + 1) h1
      · rw [Bool.not_eq_true] at hr
        obtain ⟨j, hj, hjr⟩ := hex
        have hj0 : j ≠ 0 := by
          intro h
          subst h
          rw [Nat.add_zero] at hjr
          rw [hjr] at hr
          exact absurd hr (by simp)
        cases m with
        | zero => omega
        | succ m' =>
          simp only [processFS, hr, ha, Bool.false_eq_true, if_false] at h1 ⊢
          apply ih (i + 1) fs h1
          refine ⟨j - 1, by omega, ?_⟩
          rwa [show i + 1 + (j - 1) = i + j by omega]

/-- C6 (amended).  The per-document temporary image is removed on the
success path: whenever `process_pdf` returns a record, `temp_<pdf>.png`
no longer exists.  On the failure path it is not removed: if every attempt
fails and at least one attempt got as far as saving the image, the file
still exists when `process_pdf` returns `None` (it is only reclaimed with
the batch-level temporary directory at the end of the run). -/
theorem scratch_cleanup :
    (∀ (env : ModelEnv) (pdf : List Nat) (max_retries : Nat)
       (r : List (List Nat × Json)),
       (processFS env pdf 0 max_retries false).1 = some r →
       (processFS env pdf 0 max_retries false).2 = false) ∧
    (∀ (env : ModelEnv) (pdf : List Nat) (max_retries : Nat),
       (processFS env pdf 0 max_retries false).1 = none →
       (∃ j, j < max_retries ∧ env.raster j = true) →
       (processFS env pdf 0 max_retries false).2 = true) := by
  constructor
  · intro env pdf maxr r h
    exact processFS_success_clears env pdf maxr 0 false r h
  · intro env pdf maxr h hex
    apply processFS_failure_leaves env pdf maxr 0 false h
    obtain ⟨j, hj, hjr⟩ := hex
    exact ⟨j, hj, by rwa [Nat.zero_add]⟩

/-- Environment whose model always answers with unparseable text, so every
attempt fails after the image was saved. -/
def envC6 : ModelEnv := ⟨fun _ => true, fun _ => some (lc "no json here")⟩

/-- Counterexample to C6 as stated: for `inv1.pdf` under `envC6`, extraction
fails (`None` is returned) and the temporary image file still exists at
that moment — it was not removed after use on the failure path. -/
theorem scratch_cleanup_cex :
    (processFS envC6 (lc "inv1.pdf") 0 3 false).1 = none ∧
    (processFS envC6 (lc "inv1.pdf") 0 3 false).2 = true :=
  ⟨rfl, rfl⟩

/-- Environment whose model answers a parseable response at once. -/
def envC6b : ModelEnv := ⟨fun _ => true, fun _ => some (lc "\x7b\"DATE\": \"d\"\x7d")⟩

/-- The record extracted from `envC6b`'s answer for `inv1.pdf`. -/
def recC6b : List (List Nat × Json) :=
  [(lc "INVOICE_DATE", Json.str (lc "d")), (lc "pdf_file", Json.str (lc "inv1.pdf"))]

/-- Concrete instantiation of `scratch_cleanup` on both paths. -/
theorem scratch_cleanup_witness :
    ((processFS envC6b (lc "inv1.pdf") 0 3 false).1 = some recC6b ∧
     (processFS envC6b (lc "inv1.pdf") 0 3 false).2 = false) ∧
    ((processFS envC6 (lc "inv1.pdf") 0 3 false).1 = none ∧
     (∃ j, j < 3 ∧ envC6.raster j = true) ∧
     (processFS envC6 (lc "inv1.pdf") 0 3 false).2 = true) :=
  ⟨⟨rfl, scratch_cleanup.1 envC6b (lc "inv1.pdf") 3 recC6b rfl⟩,
   ⟨rfl, ⟨0, by omega, rfl⟩,
    scratch_cleanup.2 envC6 (lc "inv1.pdf") 3 rfl ⟨0, by omega, rfl⟩⟩⟩

/-! ### C5: session-state caching -/

/-- C5 (amended).  Cache behavior of the upload handler: (1) if the stored
data is a (necessarily nonempty) previous BatchResult and the stored sorted
name list equals the sorted names of the new upload, the stored result is
returned unchanged with zero pipeline invocations; (2) any difference in
the sorted name list triggers full reprocessing of all documents; (3) so
does an empty cache — in particular a previous run that produced no
records, since an empty BatchResult is never stored. -/
theorem cache_short_circuit :
    (∀ (st : SessionState) (files : List (List Nat))
       (pipeline : List Nat → Option (List (List Nat × Json)))
       (d : List (List (List Nat × Json))),
       st.data = some d → st.uploaded_file_names = sortNames files →
       run_upload st files pipeline = ⟨st, some d, 0⟩) ∧
    (∀ (st : SessionState) (files : List (List Nat))
       (pipeline : List Nat → Option (List (List Nat × Json))),
       st.uploaded_file_names ≠ sortNames files →
       (run_upload st files pipeline).processedDocs = files.length) ∧
    (∀ (st : SessionState) (files : List (List Nat))
       (pipeline : List Nat → Option (List (List Nat × Json))),
       st.data = none →
       (run_upload st files pipeline).processedDocs = files.length) := by
  refine ⟨?_, ?_, ?_⟩
  · intro st files pipeline d hd hnames
    obtain ⟨dta, names⟩ := st
    simp only at hd hnames
    subst hd
    subst hnames
    simp [run_upload]
  · intro st files pipeline hne
    obtain ⟨dta, names⟩ := st
    simp only at hne
    cases dta with
    | none => simp [run_upload]
    | some d => simp [run_upload, hne]
  · intro st files pipeline hd
    obtain ⟨dta, names⟩ := st
    simp only at hd
    subst hd
    simp [run_upload]

/-- Pipeline in which every document fails all retries. -/
def pipeNone : List Nat → Option (List (List Nat × Json)) := fun _ => none

/-- Session state left by an upload of `inv1.pdf` whose extraction failed:
no data is stored, only the name list. -/
def stEmpty : SessionState :=
  (run_upload ⟨none, []⟩ [lc "inv1.pdf"] pipeNone).state

/-- Counterexample to C5 as stated: re-invoking the batch with the
identical document identifier set after a run whose BatchResult was empty
reprocesses all documents (1 pipeline invocation, not 0), because an empty
result is never cached. -/
theorem cache_short_circuit_cex :
    stEmpty.uploaded_file_names = sortNames [lc "inv1.pdf"] ∧
    (run_upload stEmpty [lc "inv1.pdf"] pipeNone).processedDocs = 1 ∧
    (run_upload stEmpty [lc "inv1.pdf"] pipeNone).processedDocs ≠ 0 :=
  ⟨rfl, rfl, by decide⟩

/-- A one-record result for `inv1.pdf`. -/
def recC5 : List (List Nat × Json) := [(lc "pdf_file", Json.str (lc "inv1.pdf"))]

/-- Pipeline in which every document succeeds with `recC5`. -/
def pipeC5 : List Nat → Option (List (List Nat × Json)) := fun _ => some recC5

/-- Session state left by a successful upload of `inv1.pdf`. -/
def stC5 : SessionState :=
  (run_upload ⟨none, []⟩ [lc "inv1.pdf"] pipeC5).state

/-- Concrete instantiation of `cache_short_circuit` on all three branches. -/
theorem cache_short_circuit_witness :
    (stC5.data = some [recC5] ∧
     stC5.uploaded_file_names = sortNames [lc "inv1.pdf"] ∧
     run_upload stC5 [lc "inv1.pdf"] pipeC5 = ⟨stC5, some [recC5], 0⟩) ∧
    ((⟨some [recC5], [lc "a.pdf"]⟩ : SessionState).uploaded_file_names
        ≠ sortNames [lc "b.pdf"] ∧
     (run_upload ⟨some [recC5], [lc "a.pdf"]⟩ [lc "b.pdf"] pipeC5).processedDocs = 1) ∧
    ((⟨none, []⟩ : SessionState).data = none ∧
     (run_upload ⟨none, []⟩ [lc "inv1.pdf"] pipeC5).processedDocs = 1) :=
  ⟨⟨rfl, rfl, cache_short_circuit.1 stC5 [lc "inv1.pdf"] pipeC5 [recC5] rfl rfl⟩,
   ⟨by decide,
    cache_short_circuit.2.1 ⟨some [recC5], [lc "a.pdf"]⟩ [lc "b.pdf"] pipeC5 (by decide)⟩,
   ⟨rfl, cache_short_circuit.2.2 ⟨none, []⟩ [lc "inv1.pdf"] pipeC5 rfl⟩⟩

/-! ### Lemmas on `str.strip` / `str.upper` -/

theorem dropWhile_head_false (p : Nat → Bool) {x : Nat} (t : List Nat)
    (h : p x = false) : (x :: t).dropWhile p = x :: t := by
  simp [List.dropWhile_cons, h]

theorem dropWhile_self_idem (p : Nat → Bool) (l : List Nat) :
    (l.dropWhile p).dropWhile p = l.dropWhile p := by
  induction l with
  | nil => rfl
  | cons a t ih =>
    cases h : p a
    · simp [List.dropWhile_cons, h]
    · simp [List.dropWhile_cons, h, ih]

theorem dropWhile_map_comp (p : Nat → Bool) (f : Nat → Nat) (l : List Nat) :
    (l.map f).dropWhile p = (l.dropWhile (fun x => p (f x))).map f := by
  induction l with
  | nil => rfl
  | cons a t ih =>
    cases h : p (f a) <;> simp [List.dropWhile_cons, h, ih]

theorem head?_dropWhile_false (p : Nat → Bool) (l : List Nat) :
    ∀ x, (l.dropWhile p).head? = some x → p x = false := by
  induction l with
  | nil => intro x h; simp at h
  | cons a t ih =>
    intro x h
    cases ha : p a
    · rw [dropWhile_head_false p t ha] at h
      simp at h
      rw [← h]
      exact ha
    · rw [List.dropWhile_cons, ha] at h
      simp at h
      exact ih x h

/-- The back half of `strip`: remove trailing whitespace. -/
def stripBack (l : List Nat) : List Nat :=
  (l.reverse.dropWhile isPySpace).reverse

theorem pyStrip_def (l : List Nat) :
    pyStrip l = stripBack (l.dropWhile isPySpace) := rfl

theorem stripBack_idem (l : List Nat) : stripBack (stripBack l) = stripBack l := by
  unfold stripBack
  rw [List.reverse_reverse, dropWhile_self_idem]

theorem stripBack_head (l : List Nat) :
    stripBack l = [] ∨ (stripBack l).head? = l.head? := by
  unfold stripBack
  have hsplit := List.takeWhile_append_dropWhile (p := isPySpace) (l := l.reverse)
  cases hyn : l.reverse.dropWhile isPySpace with
  | nil => left; simp [hyn]
  | cons b t =>
    right
    have hl : l = (l.reverse.dropWhile isPySpace).reverse
        ++ (l.reverse.takeWhile isPySpace).reverse := by
      have h2 := congrArg List.reverse hsplit
      rw [List.reverse_append, List.reverse_reverse] at h2
      exact h2.symm
    rw [hyn] at hl
    conv_rhs => rw [hl]
    simp

theorem pyStrip_idem (l : List Nat) : pyStrip (pyStrip l) = pyStrip l := by
  rw [pyStrip_def, pyStrip_def]
  rcases stripBack_head (l.dropWhile isPySpace) with h | h
  · rw [h]
    simp [stripBack]
  · cases hA : (l.dropWhile isPySpace).head? with
    | none =>
      have hnil : l.dropWhile isPySpace = [] := by
        cases hc : l.dropWhile isPySpace
        · rfl
        · rw [hc] at hA; simp at hA
      rw [hnil]
      simp [stripBack]
    | some a =>
      have hpa : isPySpace a = false := head?_dropWhile_false isPySpace l a hA
      rw [hA] at h
      obtain ⟨t, ht⟩ : ∃ t, stripBack (l.dropWhile isPySpace) = a :: t := by
        cases hS : stripBack (l.dropWhile isPySpace)
        · rw [hS] at h; simp at h
        · rw [hS] at h
          simp at h
          exact ⟨_, by rw [h]⟩
      rw [ht, dropWhile_head_false isPySpace t hpa, ← ht]
      exact stripBack_idem _

theorem upperChar_idem (n : Nat) : upperChar (upperChar n) = upperChar n := by
  unfold upperChar
  by_cases h : (97 ≤ n && n ≤ 122) = true
  · rw [if_pos h]
    simp only [Bool.and_eq_true, decide_eq_true_eq] at h
    rw [if_neg (by simp only [Bool.and_eq_true, decide_eq_true_eq, not_and]; omega)]
  · rw [if_neg h, if_neg h]

theorem isPySpace_upperChar (n : Nat) : isPySpace (upperChar n) = isPySpace n := by
  unfold upperChar
  by_cases h : (97 ≤ n && n ≤ 122) = true
  · rw [if_pos h]
    simp only [Bool.and_eq_true, decide_eq_true_eq] at h
    have h1 : isPySpace (n - 32) = false := by
      simp only [isPySpace, Bool.or_eq_false_iff, decide_eq_false_iff_not]
      omega
    have h2 : isPySpace n = false := by
      simp only [isPySpace, Bool.or_eq_false_iff, decide_eq_false_iff_not]
      omega
    rw [h1, h2]
  · rw [if_neg h]

theorem pyUpper_idem (l : List Nat) : pyUpper (pyUpper l) = pyUpper l := by
  unfold pyUpper
  rw [List.map_map]
  exact map_congr_mem (fun a _ => upperChar_idem a)

theorem pyStrip_pyUpper_comm (l : List Nat) :
    pyStrip (pyUpper l) = pyUpper (pyStrip l) := by
  have hpred : (fun x => isPySpace (upperChar x)) = isPySpace :=
    funext isPySpace_upperChar
  unfold pyStrip pyUpper
  rw [dropWhile_map_comp, hpred, ← List.map_reverse, dropWhile_map_comp, hpred,
    ← List.map_reverse]

theorem normKey_arg_fix (k : List Nat) :
    pyUpper (pyStrip (pyUpper (pyStrip k))) = pyUpper (pyStrip k) := by
  rw [pyStrip_pyUpper_comm, pyStrip_idem, pyUpper_idem]

theorem dictGet_mem {d : List (List Nat × α)} {k : List Nat} {v : α}
    (h : dictGet d k = some v) : (k, v) ∈ d := by
  unfold dictGet at h
  cases hf : d.find? (fun p => p.1 == k) with
  | none => rw [hf] at h; simp at h
  | some q =>
    rw [hf] at h
    simp at h
    have hq := List.find?_some hf
    rw [beq_iff_eq] at hq
    have hmem := List.mem_of_find?_eq_some hf
    have : q = (k, v) := by
      obtain ⟨q1, q2⟩ := q
      simp at hq h
      rw [hq, h]
    rwa [this] at hmem

theorem normKey_idem (k : List Nat) : normKey (normKey k) = normKey k := by
  cases hget : dictGet field_name_mapping (pyUpper (pyStrip k)) with
  | none =>
    have h1 : normKey k = pyUpper (pyStrip k) := by
      rw [normKey, hget]
      rfl
    rw [h1, normKey, normKey_arg_fix, hget]
    rfl
  | some v =>
    have h1 : normKey k = v := by
      rw [normKey, hget]
      rfl
    rw [h1]
    have hmem := dictGet_mem hget
    simp only [field_name_mapping, List.mem_cons, List.not_mem_nil, or_false] at hmem
    rcases hmem with h|h|h|h|h|h|h <;>
      (injection h with hu hv; subst hv; decide)

/-! ### The normalization fold -/

theorem normalize_aux :
    ∀ (d acc : List (List Nat × Json)),
      (acc.map Prod.fst ++ d.map (fun p => normKey p.1)).Nodup →
      d.foldl (fun acc p => dictInsert acc (normKey p.1) p.2) acc
        = acc ++ d.map (fun p => (normKey p.1, p.2)) := by
  intro d
  induction d with
  | nil => intro acc _; simp
  | cons p rest ih =>
    intro acc hnd
    simp only [List.map_cons] at hnd
    have hdisj : normKey p.1 ∉ acc.map Prod.fst := by
      have hd := List.disjoint_of_nodup_append hnd
      intro hmem
      exact hd hmem (by simp)
    have hfresh : hasKey acc (normKey p.1) = false := by
      cases hhk : hasKey acc (normKey p.1)
      · rfl
      · exfalso
        apply hdisj
        unfold hasKey at hhk
        rw [List.any_eq_true] at hhk
        obtain ⟨q, hq, hbeq⟩ := hhk
        rw [beq_iff_eq] at hbeq
        exact hbeq ▸ List.mem_map_of_mem Prod.fst hq
    rw [List.foldl_cons, dictInsert_fresh hfresh,
      ih (acc ++ [(normKey p.1, p.2)]) (by
        rw [List.map_append]
        simpa [← List.append_cons] using hnd)]
    simp

/-! ### C2: normalizer totality -/

/-- C2 (amended).  Normalization is a pure total function (it always
returns a mapping), but it keys the output by the normalized key, so
entries whose keys normalize to the same canonical name are merged rather
than kept apart; whenever no two input keys normalize to the same key —
in particular for every injectively-normalizing input — the output has
exactly one entry per input entry and nothing is dropped. -/
theorem normalizer_totality (d : List (List Nat × Json))
    (h : (d.map (fun p => normKey p.1)).Nodup) :
    normalize_field_names d = d.map (fun p => (normKey p.1, p.2)) ∧
    (normalize_field_names d).length = d.length := by
  have he : normalize_field_names d = d.map (fun p => (normKey p.1, p.2)) := by
    unfold normalize_field_names
    simpa using normalize_aux d [] (by simpa using h)
  exact ⟨he, by rw [he, List.length_map]⟩

/-- Two distinct raw keys that normalize to the same canonical field. -/
def dC2 : List (List Nat × Json) :=
  [(lc "DATE", Json.str (lc "x")), (lc "Date ", Json.str (lc "y"))]

/-- Counterexample to C2 as stated: a valid 2-entry input mapping (distinct
keys) whose normalization has only 1 entry — `DATE` and `Date ` both
normalize to `INVOICE_DATE`, so an entry is dropped. -/
theorem normalizer_totality_cex :
    (dC2.map Prod.fst).Nodup ∧ dC2.length = 2 ∧
    (normalize_field_names dC2).length = 1 :=
  ⟨by decide, rfl, rfl⟩

/-- A mapping whose keys normalize injectively. -/
def dC2w : List (List Nat × Json) :=
  [(lc "DATE", Json.null), (lc "foo", Json.bool true)]

/-- Concrete instantiation of `normalizer_totality`. -/
theorem normalizer_totality_witness :
    (dC2w.map (fun p => normKey p.1)).Nodup ∧
    (normalize_field_names dC2w = dC2w.map (fun p => (normKey p.1, p.2)) ∧
     (normalize_field_names dC2w).length = dC2w.length) :=
  ⟨by decide, normalizer_totality dC2w (by decide)⟩

/-! ### C8: normalizer idempotence -/

/-- C8.  Idempotence: on a mapping every key of which is already an output
of normalization (with the distinct keys of a Python dict), normalizing
again is the identity. -/
theorem normalizer_idempotent (d : List (List Nat × Json))
    (hkeys : ∀ p ∈ d, ∃ k, p.1 = normKey k)
    (hnodup : (d.map Prod.fst).Nodup) :
    normalize_field_names d = d := by
  have hfix : ∀ p ∈ d, normKey p.1 = p.1 := by
    intro p hp
    obtain ⟨k, hk⟩ := hkeys p hp
    rw [hk, normKey_idem]
  have hmapeq : d.map (fun p => normKey p.1) = d.map Prod.fst :=
    map_congr_mem (fun p hp => hfix p hp)
  have he := normalize_aux d [] (by simpa [hmapeq] using hnodup)
  unfold normalize_field_names
  rw [he]
  simp only [List.nil_append]
  have hid : ∀ p ∈ d, (normKey p.1, p.2) = (fun q => q) p := by
    intro p hp
    rw [hfix p hp]
  rw [map_congr_mem hid]
  simp

/-- An already-normalized mapping: one canonical key, one passthrough key. -/
def dC8 : List (List Nat × Json) :=
  [(lc "INVOICE_NO", Json.null), (lc "FOO", Json.bool true)]

/-- Concrete instantiation of `normalizer_idempotent`. -/
theorem normalizer_idempotent_witness :
    (∀ p ∈ dC8, ∃ k, p.1 = normKey k) ∧ (dC8.map Prod.fst).Nodup ∧
    normalize_field_names dC8 = dC8 := by
  have hk : ∀ p ∈ dC8, ∃ k, p.1 = normKey k := by
    intro p hp
    simp only [dC8, List.mem_cons, List.not_mem_nil, or_false] at hp
    rcases hp with rfl | rfl
    · exact ⟨lc "INVOICE NO.", by decide⟩
    · exact ⟨lc "foo", by decide⟩
  exact ⟨hk, by decide, normalizer_idempotent dC8 hk (by decide)⟩

/-! ### C1: the response parser -/

theorem dropWhile_all_nil (p : Nat → Bool) (l : List Nat)
    (h : ∀ x ∈ l, p x = true) : l.dropWhile p = [] := by
  induction l with
  | nil => rfl
  | cons a t ih =>
    rw [List.dropWhile_cons, h a (by simp)]
    exact ih (fun x hx => h x (by simp [hx]))

theorem dropWhile_append_all (p : Nat → Bool) (l m : List Nat)
    (h : ∀ x ∈ l, p x = true) : (l ++ m).dropWhile p = m.dropWhile p := by
  induction l with
  | nil => rfl
  | cons a t ih =>
    rw [List.cons_append, List.dropWhile_cons, h a (by simp)]
    exact ih (fun x hx => h x (by simp [hx]))

/-- Where the greedy DOTALL regex match lands when the object really spans
from the first `{` to the last `}` of the text: it recovers the object
exactly. -/
theorem findEmbeddedJson_exact (pre obj post : List Nat)
    (hpre : ¬ 123 ∈ pre) (hhead : obj.head? = some 123)
    (hlast : obj.getLast? = some 125) (hpost : ¬ 125 ∈ post) :
    findEmbeddedJson (pre ++ obj ++ post) = some obj := by
  obtain ⟨obj', rfl⟩ : ∃ t, obj = 123 :: t := by
    cases hc : obj
    · rw [hc] at hhead; simp at hhead
    · rw [hc] at hhead
      simp at hhead
      exact ⟨_, by rw [hhead]⟩
  have hobj' : obj' ≠ [] := by
    intro h
    subst h
    simp at hlast
  have hlast' : obj'.getLast? = some 125 := by
    obtain ⟨b, t, rfl⟩ : ∃ b t, obj' = b :: t := by
      cases hc : obj'
      · exact absurd hc hobj'
      · exact ⟨_, _, rfl⟩
    rwa [List.getLast?_cons_cons] at hlast
  obtain ⟨w, hw⟩ : ∃ w, obj'.reverse = 125 :: w := by
    have hh : obj'.reverse.head? = some 125 := by
      rw [List.head?_reverse]
      exact hlast'
    cases hc : obj'.reverse
    · rw [hc] at hh; simp at hh
    · rw [hc] at hh
      simp at hh
      exact ⟨_, by rw [hh]⟩
  have hstep1 : (pre ++ (123 :: obj') ++ post).dropWhile (fun c => c != 123)
      = 123 :: (obj' ++ post) := by
    rw [List.append_assoc, List.cons_append,
      dropWhile_append_all _ pre _ (fun x hx => by
        simp only [bne_iff_ne, ne_eq]
        intro hx123
        exact hpre (hx123 ▸ hx)),
      dropWhile_head_false _ _ (by decide)]
  have hstep2 : ((obj' ++ post).reverse).dropWhile (fun c => c != 125) = 125 :: w := by
    rw [List.reverse_append,
      dropWhile_append_all _ post.reverse _ (fun x hx => by
        simp only [bne_iff_ne, ne_eq]
        intro hx125
        exact hpost (hx125 ▸ (List.mem_reverse.mp hx))),
      hw, dropWhile_head_false _ _ (by decide)]
  have hrev : (125 :: w).reverse = obj' := by
    rw [← hw, List.reverse_reverse]
  simp only [findEmbeddedJson, hstep1, hstep2, hrev]
  simp [hobj']

/-- When the text has no `\x7b`…`\x7d` pair, the regex cannot match. -/
theorem findEmbeddedJson_none (s : List Nat) (h : hasBracePair s = false) :
    findEmbeddedJson s = none := by
  unfold hasBracePair at h
  unfold findEmbeddedJson
  cases hd : s.dropWhile (fun c => c != 123) with
  | nil => rfl
  | cons c rest =>
    rw [hd] at h
    have hmem : ¬ 125 ∈ rest := by
      have h' : decide (125 ∈ rest) = false := h
      simpa using h'
    have hall : rest.reverse.dropWhile (fun c => c != 125) = [] := by
      apply dropWhile_all_nil
      intro x hx
      simp only [bne_iff_ne, ne_eq]
      intro hx125
      exact hmem (hx125 ▸ (List.mem_reverse.mp hx))
    simp [hall]

/-- C1 (amended).  Exact recovery holds when the prose around the single
well-formed object contains no `\x7b` before it and no `\x7d` after it —
equivalently, when the object spans from the text's first `\x7b` to its
last `\x7d`: then parsing locates and decodes exactly that object.  For
text with no such pair at all, parsing fails with a ParseError.  (When the
prose does contain such braces, the greedy leftmost match spans beyond the
object and decoding fails — see the counterexample.) -/
theorem response_parser_exact :
    (∀ (pre obj post : List Nat) (v : Json),
       json_loads obj = some v →
       obj.head? = some 123 → obj.getLast? = some 125 →
       ¬ 123 ∈ pre → ¬ 125 ∈ post →
       parse_response (pre ++ obj ++ post) = Except.ok v) ∧
    (∀ s : List Nat, hasBracePair s = false →
       parse_response s = Except.error ParseFailure.noJson) := by
  constructor
  · intro pre obj post v hload hhead hlast hpre hpost
    unfold parse_response
    rw [findEmbeddedJson_exact pre obj post hpre hhead hlast hpost]
    simp [hload]
  · intro s h
    unfold parse_response
    rw [findEmbeddedJson_none s h]

/-- Model output containing exactly one well-formed JSON object and a stray
closing brace in the trailing prose. -/
def cexText : List Nat := lc "\x7b\"a\":1\x7d \x7d"

/-- Counterexample to C1 as stated: `cexText` contains exactly one
well-formed JSON object substring (`\x7b"a":1\x7d`, prose around it), yet
parsing reports a decode failure instead of recovering that object: the
greedy match runs from the first `\x7b` to the *last* `\x7d`, swallowing
the prose brace, and `json.loads` rejects the result. -/
theorem response_parser_cex :
    countObjSubstrings cexText = 1 ∧
    isJsonObjText (lc "\x7b\"a\":1\x7d") = true ∧
    parse_response cexText = Except.error ParseFailure.decodeError :=
  ⟨by decide, by decide, rfl⟩

/-- Concrete instantiation of `response_parser_exact` on both conjuncts. -/
theorem response_parser_exact_witness :
    (json_loads (lc "\x7b\"a\": 1\x7d") = some (Json.obj [(lc "a", Json.num (lc "1"))]) ∧
     (lc "\x7b\"a\": 1\x7d").head? = some 123 ∧
     (lc "\x7b\"a\": 1\x7d").getLast? = some 125 ∧
     ¬ 123 ∈ lc "Sure: " ∧ ¬ 125 ∈ lc " done" ∧
     parse_response (lc "Sure: " ++ lc "\x7b\"a\": 1\x7d" ++ lc " done")
       = Except.ok (Json.obj [(lc "a", Json.num (lc "1"))])) ∧
    (hasBracePair (lc "no json at all") = false ∧
     parse_response (lc "no json at all") = Except.error ParseFailure.noJson) :=
  ⟨⟨rfl, rfl, rfl, by decide, by decide,
    response_parser_exact.1 (lc "Sure: ") (lc "\x7b\"a\": 1\x7d") (lc " done")
      (Json.obj [(lc "a", Json.num (lc "1"))]) rfl rfl rfl (by decide) (by decide)⟩,
   ⟨rfl, response_parser_exact.2 (lc "no json at all") rfl⟩⟩

/-! ### C9: end-to-end scenario -/

/-- The stub model reply of the end-to-end scenario. -/
def respC9 : List Nat :=
  lc "Here is the data: \x7b\"INVOICE NO.\": \"A100\", \"DATE\": \"2024-01-05\", \"INVOICE TOTAL\": \"250.00\"\x7d"

/-- Environment for the scenario: rasterization succeeds and the model
always answers `respC9`. -/
def envC9 : ModelEnv := ⟨fun _ => true, fun _ => some respC9⟩

/-- The record the scenario should produce for `inv1.pdf`. -/
def recC9 : List (List Nat × Json) :=
  [(lc "INVOICE_NO", Json.str (lc "A100")),
   (lc "INVOICE_DATE", Json.str (lc "2024-01-05")),
   (lc "INVOICE_TOTAL", Json.str (lc "250.00")),
   (lc "pdf_file", Json.str (lc "inv1.pdf"))]

/-- C9.  End-to-end: one document `inv1.pdf` whose model reply is the
scenario text yields, in one model call, the record `recC9`; the batch of
that single document aggregates to exactly that record, and its projected
row is `INVOICE_NO=A100, INVOICE_DATE=2024-01-05, INVOICE_TOTAL=250.00,
pdf_file=inv1.pdf` with the four remaining columns empty. -/
theorem end_to_end_scenario :
    process_pdf envC9 (lc "inv1.pdf") = ⟨some recC9, 1, 1⟩ ∧
    run_batch [lc "inv1.pdf"] (fun f => (process_pdf envC9 f).result) = [recC9] ∧
    toRow recC9 =
      [some (Json.str (lc "A100")), some (Json.str (lc "2024-01-05")),
       none, none, none, none, some (Json.str (lc "250.00")),
       some (Json.str (lc "inv1.pdf"))] :=
  ⟨rfl, rfl, rfl⟩

end SPR
